import Mathlib

/-!
Formal model of the `bootstrapper` repository.

Two source files are modelled:

* `hinting/dns.go` — the DNS-SD resolution engine (`resolveDNS`, the
  `byPriority` and `byOrder` sort orders, the record batching and the
  recursive chase).
* the `main` bootstrapper file (`tryBootstrapping`, `pullTopology`,
  `pullTRCs`, `fetchHTTP`, URL building and tar extraction), together with
  the Go standard-library path functions it calls (`path.Join`,
  `path.Clean`, `filepath.Base` with the unix separator).

Conventions of the embedding:

* Machine integers (`uint16` record fields, ports) are modelled as `ℕ`;
  the Go code only compares and adds them (sums of two `uint16` values fit
  in `int` with no overflow), so no modular arithmetic arises.
* `math/rand` is modelled two ways, both reading the source of
  `byPriority.Less`: as an injected stream of naturals (`RandS`, one entry
  consumed per `rand.Intn` call, reduced modulo the bound — every outcome
  sequence of the real generator is one such stream), and as a finite
  rational-weighted distribution (`Dist`) for probabilistic statements.
* `sort.Sort` runs plain insertion sort for slices shorter than 12
  elements (both the classic `quickSort` and the newer `pdqsort` dispatch
  to `insertionSort` below that size, and the shell pass with gap 6 is a
  no-op there); the embedding uses the insertion-sort comparison sequence:
  the element at index `i` is compared against its left neighbour and
  swapped while `Less` holds.
* The recursive DNS chase carries a `fuel` counter; `none` means the fuel
  was exhausted, i.e. the real (unbounded) recursion would descend deeper
  than `fuel` levels.  `dns.Exchange` results are an environment
  `Env : String → RR → Option (List Answer)`; `Option.none` there models a
  failed exchange (logged and skipped by the code).
* Side effects are traces: issued queries and IP hints sent to the channel
  become `Event`s, file writes become `(path, content)` pairs.
-/

namespace Bootstrap

/-- DNS resource-record types the engine queries (`dns.TypeSRV` …). -/
inductive RR where
  | SRV
  | PTR
  | NAPTR
  | A
  | AAAA
  deriving DecidableEq, Repr

/-- One SRV answer (`dns.SRV`), restricted to the fields the code reads.
`uint16` fields are modelled as `ℕ`. -/
structure SRVRec where
  Priority : ℕ
  Weight : ℕ
  Port : ℕ
  Target : String
  deriving DecidableEq, Repr

/-- One NAPTR answer (`dns.NAPTR`), restricted to the fields the code
reads. -/
structure NAPTRRec where
  Order : ℕ
  Preference : ℕ
  Flags : String
  Service : String
  Replacement : String
  deriving DecidableEq, Repr

/-- `discoveryServiceDNSName` from `hinting/dns.go`. -/
def discoveryServiceDNSName : String := "_sciondiscovery._tcp"

/-- `discoveryDDDSDNSName` from `hinting/dns.go`: the NAPTR service tag the
engine accepts. -/
def discoveryDDDSDNSName : String := "x-sciondiscovery:tcp"

/-- `getDNSSDQuery`: the SRV/PTR discovery query name. -/
def getDNSSDQuery (domain : String) : String :=
  discoveryServiceDNSName ++ "." ++ domain ++ "."

/-- `getDNSNAPTRQuery`: the NAPTR discovery query name. -/
def getDNSNAPTRQuery (domain : String) : String := domain ++ "."

/-- An injected randomness source: the stream of values returned by the
`math/rand` generator, one entry per `rand.Intn` call. -/
abbrev RandS := List ℕ

/-- `rand.Intn n` over the injected stream: consume one entry and reduce it
modulo `n` (the code only calls it with `n ≥ 1`).  Every sequence of
outcomes of the real generator is realised by some stream. -/
def randIntnS (n : ℕ) : RandS → ℕ × RandS
  | [] => (0, [])
  | v :: rest => (v % n, rest)

/-- `byPriority.Less` from `hinting/dns.go` over the injected stream:
strictly smaller priority first; with equal priorities and both weights
zero a coin flip (`rand.Intn 2 == 0`); otherwise
`rand.Intn (wi + wj) < wi`. -/
def byPriorityLessS (x y : SRVRec) (r : RandS) : Bool × RandS :=
  if x.Priority < y.Priority then (true, r)
  else if y.Priority < x.Priority then (false, r)
  else if x.Weight = 0 ∧ y.Weight = 0 then
    (decide ((randIntnS 2 r).1 = 0), (randIntnS 2 r).2)
  else
    (decide ((randIntnS (x.Weight + y.Weight) r).1 < x.Weight),
     (randIntnS (x.Weight + y.Weight) r).2)

/-- Inner loop of Go's `insertionSort` for `byPriority`, on the reversed
sorted prefix: the moving element `x` is compared against its left
neighbour (`data.Less(j, j-1)`) and moves left while `Less` holds. -/
def insertSRVS (x : SRVRec) : List SRVRec → RandS → List SRVRec × RandS
  | [], r => ([x], r)
  | y :: rev, r =>
    if (byPriorityLessS x y r).1 then
      (y :: (insertSRVS x rev (byPriorityLessS x y r).2).1,
       (insertSRVS x rev (byPriorityLessS x y r).2).2)
    else (x :: y :: rev, (byPriorityLessS x y r).2)

/-- Outer loop of Go's `insertionSort` for `byPriority`: insert each
element in turn into the (reversed) sorted prefix. -/
def insertionSortSRVS : List SRVRec → List SRVRec → RandS → List SRVRec × RandS
  | revAcc, [], r => (revAcc.reverse, r)
  | revAcc, x :: xs, r =>
    insertionSortSRVS (insertSRVS x revAcc r).1 xs (insertSRVS x revAcc r).2

/-- `sort.Sort (byPriority serviceRecords)`: insertion sort with the
randomized `byPriority.Less` comparator, threading the injected stream. -/
def sortSRVGo (l : List SRVRec) (r : RandS) : List SRVRec × RandS :=
  insertionSortSRVS [] l r

/-- `byOrder.Less` from `hinting/dns.go`: ascending `Order`, then ascending
`Preference`. -/
def byOrderLess (x y : NAPTRRec) : Bool :=
  if x.Order < y.Order then true
  else if y.Order < x.Order then false
  else decide (x.Preference < y.Preference)

/-- Inner insertion-sort loop for `byOrder`, on the reversed sorted
prefix. -/
def insertNAPTR (x : NAPTRRec) : List NAPTRRec → List NAPTRRec
  | [] => [x]
  | y :: rev => if byOrderLess x y then y :: insertNAPTR x rev else x :: y :: rev

/-- Outer insertion-sort loop for `byOrder`. -/
def insertionSortNAPTR : List NAPTRRec → List NAPTRRec → List NAPTRRec
  | revAcc, [] => revAcc.reverse
  | revAcc, x :: xs => insertionSortNAPTR (insertNAPTR x revAcc) xs

/-- `sort.Sort (byOrder naptrRecords)`: insertion sort with the
deterministic `byOrder.Less` comparator. -/
def sortNAPTRGo (l : List NAPTRRec) : List NAPTRRec :=
  insertionSortNAPTR [] l

/-- One answer in a DNS response, as discriminated by the `switch` in
`resolveDNS`.  IP addresses are opaque strings. -/
inductive Answer where
  | ptr (target : String)
  | naptr (rec : NAPTRRec)
  | srv (rec : SRVRec)
  | a (ip : String)
  | aaaa (ip : String)
  deriving DecidableEq, Repr

/-- The resolver environment: what `dns.Exchange` returns for each
question; `none` models a failed exchange (logged, branch abandoned). -/
def Env : Type := String → RR → Option (List Answer)

/-- Observable actions of the engine: a query issued by `dns.Exchange` and
an IP hint sent to `ipHintsChan`. -/
inductive Event where
  | query (q : String) (rr : RR)
  | hint (ip : String)
  deriving DecidableEq, Repr

/-- The answer-scanning loop of `resolveDNS`, parameterized by the
recursive call `recurse` (PTR answers re-query their target with type SRV
immediately; NAPTR answers are batched iff their `Service` equals
`discoveryDDDSDNSName`; SRV answers are always batched — the port mismatch
check only logs; A/AAAA answers emit a hint).  Returns the events, the SRV
batch, the NAPTR batch and the remaining stream; `none` propagates fuel
exhaustion from a PTR chase. -/
def scanAnswersF (recurse : String → RR → RandS → Option (List Event × RandS)) :
    List Answer → RandS → Option (List Event × List SRVRec × List NAPTRRec × RandS)
  | [], rnd => some ([], [], [], rnd)
  | Answer.ptr target :: rest, rnd =>
    match recurse target RR.SRV rnd with
    | none => none
    | some (evs, rnd1) =>
      match scanAnswersF recurse rest rnd1 with
      | none => none
      | some (evs2, srvs, naptrs, rnd2) => some (evs ++ evs2, srvs, naptrs, rnd2)
  | Answer.naptr rec :: rest, rnd =>
    match scanAnswersF recurse rest rnd with
    | none => none
    | some (evs, srvs, naptrs, rnd2) =>
      if rec.Service = discoveryDDDSDNSName then some (evs, srvs, rec :: naptrs, rnd2)
      else some (evs, srvs, naptrs, rnd2)
  | Answer.srv rec :: rest, rnd =>
    match scanAnswersF recurse rest rnd with
    | none => none
    | some (evs, srvs, naptrs, rnd2) => some (evs, rec :: srvs, naptrs, rnd2)
  | Answer.a ip :: rest, rnd =>
    match scanAnswersF recurse rest rnd with
    | none => none
    | some (evs, srvs, naptrs, rnd2) => some (Event.hint ip :: evs, srvs, naptrs, rnd2)
  | Answer.aaaa ip :: rest, rnd =>
    match scanAnswersF recurse rest rnd with
    | none => none
    | some (evs, srvs, naptrs, rnd2) => some (Event.hint ip :: evs, srvs, naptrs, rnd2)

/-- The SRV chase loop of `resolveDNS`: for each record of the (sorted)
batch, resolve its target with type AAAA and then with type A. -/
def chaseSRVListF (recurse : String → RR → RandS → Option (List Event × RandS)) :
    List SRVRec → RandS → Option (List Event × RandS)
  | [], rnd => some ([], rnd)
  | rec :: rest, rnd =>
    match recurse rec.Target RR.AAAA rnd with
    | none => none
    | some (e1, r1) =>
      match recurse rec.Target RR.A r1 with
      | none => none
      | some (e2, r2) =>
        match chaseSRVListF recurse rest r2 with
        | none => none
        | some (es, r3) => some (e1 ++ e2 ++ es, r3)

/-- The NAPTR chase loop of `resolveDNS`: the `switch answer.Flags` —
empty flags re-issue a NAPTR query on the replacement, `"A"` issues AAAA
then A, `"S"` issues SRV, anything else falls through the switch (the
record is skipped). -/
def chaseNAPTRListF (recurse : String → RR → RandS → Option (List Event × RandS)) :
    List NAPTRRec → RandS → Option (List Event × RandS)
  | [], rnd => some ([], rnd)
  | rec :: rest, rnd =>
    if rec.Flags = "" then
      match recurse rec.Replacement RR.NAPTR rnd with
      | none => none
      | some (e1, r1) =>
        match chaseNAPTRListF recurse rest r1 with
        | none => none
        | some (es, r2) => some (e1 ++ es, r2)
    else if rec.Flags = "A" then
      match recurse rec.Replacement RR.AAAA rnd with
      | none => none
      | some (e1, r1) =>
        match recurse rec.Replacement RR.A r1 with
        | none => none
        | some (e2, r2) =>
          match chaseNAPTRListF recurse rest r2 with
          | none => none
          | some (es, r3) => some (e1 ++ e2 ++ es, r3)
    else if rec.Flags = "S" then
      match recurse rec.Replacement RR.SRV rnd with
      | none => none
      | some (e1, r1) =>
        match chaseNAPTRListF recurse rest r1 with
        | none => none
        | some (es, r2) => some (e1 ++ es, r2)
    else chaseNAPTRListF recurse rest rnd

/-- `resolveDNS` from `hinting/dns.go`, with a fuel counter bounding the
recursion depth of the model (the Go function has no such bound; a `none`
result means the chase descends deeper than `fuel`).  A call issues its
query; on exchange failure it logs and returns; otherwise it scans the
answers (PTR recursion, batching, hints), then sorts and chases the SRV
batch (AAAA then A per record), then sorts and chases the NAPTR batch
(dispatch on flags). -/
def resolveDNS (env : Env) : ℕ → String → RR → RandS → Option (List Event × RandS)
  | 0, _, _, _ => none
  | fuel + 1, query, rr, rnd =>
    match env query rr with
    | none => some ([Event.query query rr], rnd)
    | some answers =>
      match scanAnswersF (resolveDNS env fuel) answers rnd with
      | none => none
      | some (evs, srvs, naptrs, rnd1) =>
        match chaseSRVListF (resolveDNS env fuel) (sortSRVGo srvs rnd1).1 (sortSRVGo srvs rnd1).2 with
        | none => none
        | some (evsS, rnd3) =>
          match chaseNAPTRListF (resolveDNS env fuel) (sortNAPTRGo naptrs) rnd3 with
          | none => none
          | some (evsN, rnd4) =>
            some (Event.query query rr :: (evs ++ evsS ++ evsN), rnd4)

/-- A finite rational-weighted distribution over outcomes: the list of
possible execution branches with their probabilities.  Used to state
probabilistic properties of `byPriority.Less` under a uniform `rand`. -/
def Dist (α : Type) : Type := List (α × ℚ)

/-- The one-point distribution. -/
def dpure {α : Type} (a : α) : Dist α := [(a, 1)]

/-- Sequencing of distributions: branch on the first outcome. -/
def dbind {α β : Type} (d : Dist α) (f : α → Dist β) : Dist β :=
  (d.map (fun p => (f p.1).map (fun q => (q.1, p.2 * q.2)))).flatten

/-- `rand.Intn n` as the uniform distribution on `{0, …, n-1}`. -/
def randIntnD (n : ℕ) : Dist ℕ :=
  (List.range n).map (fun k => (k, 1 / (n : ℚ)))

/-- Probability that the outcome satisfies a predicate. -/
def probOf {α : Type} (d : Dist α) (p : α → Bool) : ℚ :=
  ((d.filter (fun x => p x.1)).map (fun x => x.2)).sum

/-- `byPriority.Less` as a distribution over the comparison outcome, with
`rand.Intn` uniform (same source text as `byPriorityLessS`). -/
def byPriorityLessD (x y : SRVRec) : Dist Bool :=
  if x.Priority < y.Priority then dpure true
  else if y.Priority < x.Priority then dpure false
  else if x.Weight = 0 ∧ y.Weight = 0 then
    dbind (randIntnD 2) (fun v => dpure (v = 0))
  else
    dbind (randIntnD (x.Weight + y.Weight)) (fun v => dpure (decide (v < x.Weight)))

/-- Distribution version of the inner insertion-sort loop (same comparison
sequence as `insertSRVS`). -/
def insertSRVD (x : SRVRec) : List SRVRec → Dist (List SRVRec)
  | [] => dpure [x]
  | y :: rev =>
    dbind (byPriorityLessD x y) (fun b =>
      if b then dbind (insertSRVD x rev) (fun l => dpure (y :: l))
      else dpure (x :: y :: rev))

/-- Distribution version of the outer insertion-sort loop. -/
def insertionSortSRVD : List SRVRec → List SRVRec → Dist (List SRVRec)
  | revAcc, [] => dpure revAcc.reverse
  | revAcc, x :: xs => dbind (insertSRVD x revAcc) (fun acc2 => insertionSortSRVD acc2 xs)

/-- `sort.Sort (byPriority serviceRecords)` as a distribution over the
resulting order, with each `rand.Intn` draw uniform and independent. -/
def sortSRVD (l : List SRVRec) : Dist (List SRVRec) :=
  insertionSortSRVD [] l

/-! ## The artifact fetcher (`main` package) and the Go path functions -/

/-- `filepath.Base` (unix separator, empty volume name): `"."` for the
empty path, else strip trailing slashes, take everything after the last
slash, and return `"/"` if nothing remains. -/
def filepathBase (s : String) : String :=
  if s.data = [] then "."
  else
    let stripped := s.data.reverse.dropWhile (fun c => c = '/')
    let seg := stripped.takeWhile (fun c => c ≠ '/')
    if seg = [] then "/" else String.mk seg.reverse

/-- The backtracking loop inside `path.Clean` for a `..` element
(`out.w--; for out.w > dotdot && out.index(out.w) != '/' { out.w-- }`),
on the reversed output buffer; `dropped` is the character most recently
excluded from the buffer (the one `out.index(out.w)` reads). -/
def cleanBacktrack (dotdot : ℕ) : Char → List Char → List Char
  | _, [] => []
  | dropped, d :: o =>
    if dotdot < (d :: o).length ∧ dropped ≠ '/' then cleanBacktrack dotdot d o
    else d :: o

/-- The main loop of `path.Clean` on the reversed output buffer `out`.
The loop consumes at least one input byte per iteration, so with
`fuel` at least the input length the fuel guard is unreachable.  Cases as
in the Go source: a slash is skipped; a `.` element is skipped; a `..`
element backtracks past the last output element when possible, is ignored
at the root, and is appended verbatim when there is nothing to backtrack
over in a relative path (updating `dotdot`); any other element is copied,
preceded by a separator unless at the start. -/
def cleanLoop (rooted : Bool) : ℕ → ℕ → List Char → List Char → List Char
  | 0, _, out, _ => out
  | _ + 1, _, out, [] => out
  | fuel + 1, dotdot, out, c :: rest =>
    if c = '/' then cleanLoop rooted fuel dotdot out rest
    else if c = '.' ∧ (rest = [] ∨ rest.head? = some '/') then
      cleanLoop rooted fuel dotdot out rest
    else if c = '.' ∧ rest.head? = some '.' ∧ (rest.tail = [] ∨ rest.tail.head? = some '/') then
      if dotdot < out.length then
        match out with
        | [] => cleanLoop rooted fuel dotdot [] rest.tail
        | d :: o => cleanLoop rooted fuel dotdot (cleanBacktrack dotdot d o) rest.tail
      else if rooted then cleanLoop rooted fuel dotdot out rest.tail
      else
        let out2 := if out = [] then ['.', '.'] else '.' :: '.' :: '/' :: out
        cleanLoop rooted fuel out2.length out2 rest.tail
    else
      let out2 :=
        if (rooted ∧ out.length ≠ 1) ∨ (¬ rooted ∧ out.length ≠ 0) then '/' :: out else out
      cleanLoop rooted fuel dotdot
        ((c :: rest.takeWhile (fun x => x ≠ '/')).reverse ++ out2)
        (rest.dropWhile (fun x => x ≠ '/'))

/-- `path.Clean`: `"."` for the empty path; otherwise run the element loop
(seeded with the root slash when the path is rooted) and return `"."` if
the output is empty. -/
def pathClean (s : String) : String :=
  if s.data = [] then "."
  else if s.data.head? = some '/' then
    let outRev := cleanLoop true s.data.tail.length 1 ['/'] s.data.tail
    if outRev = [] then "." else String.mk outRev.reverse
  else
    let outRev := cleanLoop false s.data.length 0 [] s.data
    if outRev = [] then "." else String.mk outRev.reverse

/-- `path.Join`: the empty string when every element is empty, otherwise
the elements buffered with single separators and cleaned (interior empty
elements only introduce duplicate slashes, which `Clean` removes). -/
def pathJoin (elems : List String) : String :=
  if elems.all (fun e => e = "") then ""
  else pathClean (elems.foldl (fun buf e => if buf = "" then e else buf ++ "/" ++ e) "")

/-- Tar entry type flag: `tar.TypeReg`, `tar.TypeDir`, or any other flag
byte. -/
inductive TypeFlag where
  | reg
  | dir
  | other (c : Char)
  deriving DecidableEq, Repr

/-- One entry of the TRCs tar archive: header type flag and name, plus the
file content the reader would stream. -/
structure TarEntry where
  typeflag : TypeFlag
  name : String
  content : String
  deriving DecidableEq, Repr

/-- Constants from the `main` package. -/
def baseURL : String := "scion/discovery/v1"

/-- `topologyEndpoint` constant. -/
def topologyEndpoint : String := "/topology.json"

/-- `TRCsEndpoint` constant. -/
def TRCsEndpoint : String := "/trcs.tar"

/-- `TopologyJSONFileName` constant. -/
def TopologyJSONFileName : String := "topology.json"

/-- The tar-extraction loop of `pullTRCs`: walk the entries in stream
order; a regular file whose base name is `"."` is skipped with a logged
warning, any other regular file is written to
`path.Join(dir, "certs", Base(name))`; a directory entry or an entry of
any other type aborts with a fatal error.  Returns the files written (in
order) and the error, if any.  File-system writes are modelled as
succeeding; tar read errors are not modelled. -/
def extractTRCs (dir : String) : List TarEntry → List (String × String) × Option String
  | [] => ([], none)
  | e :: rest =>
    match e.typeflag with
    | TypeFlag.reg =>
      let trcName := filepathBase e.name
      if trcName = "." then extractTRCs dir rest
      else
        let trcPath := pathJoin [dir, "certs", trcName]
        let res := extractTRCs dir rest
        ((trcPath, e.content) :: res.1, res.2)
    | TypeFlag.dir =>
      ([], some "TRCs archive must be composed of TRCs only, directory found")
    | TypeFlag.other _ =>
      ([], some "TRCs archive must be composed of TRCs only, unknown type found")

/-- `fetchHTTP`: a failed request is an error, a non-200 status is an
error, otherwise the body is returned.  The response (or its absence) is
the environment's value for the fetched URL. -/
def fetchHTTP {β : Type} : Option (ℕ × β) → Except String β
  | none => Except.error "HTTP request failed"
  | some (status, body) =>
    if status ≠ 200 then Except.error "Status not OK" else Except.ok body

/-- A TCP address as used by the bootstrapper (`net.TCPAddr`): IP rendered
as a string, and a port (`0` meaning absent). -/
structure TCPAddr where
  ip : String
  port : ℕ
  deriving DecidableEq, Repr

/-- Modelled from the spec: the well-known discovery port constant
(`hinting.DiscoveryPort`); its definition is not among the provided source
files, only its uses, and the spec fixes no numeric value, so an arbitrary
concrete value stands in — no claim depends on the number. -/
def DiscoveryPort : ℕ := 8041

/-- `buildTopologyURL`: `http://<ip>:<port>/scion/discovery/v1/topology.json`. -/
def buildTopologyURL (a : TCPAddr) : String :=
  "http://" ++ a.ip ++ ":" ++ toString a.port ++ "/" ++ (baseURL ++ topologyEndpoint)

/-- `buildTRCsURL`: `http://<ip>:<port>/scion/discovery/v1/trcs.tar`. -/
def buildTRCsURL (a : TCPAddr) : String :=
  "http://" ++ a.ip ++ ":" ++ toString a.port ++ "/" ++ (baseURL ++ TRCsEndpoint)

/-- `pullTopology`: fetch the topology URL; on fetch failure return the
error; otherwise the body must parse as a topology document
(`topology.RWTopologyFromJSONBytes`, an external library modelled by the
predicate `parseTopo`) before the raw bytes are written to
`path.Join(dir, "topology.json")`.  Returns the written file (if any) and
the error (if any).  Body reading and the file write are modelled as
succeeding. -/
def pullTopology (parseTopo : String → Bool) (dir : String)
    (httpTopo : String → Option (ℕ × String)) (a : TCPAddr) :
    Option (String × String) × Option String :=
  match fetchHTTP (httpTopo (buildTopologyURL a)) with
  | Except.error e => (none, some e)
  | Except.ok raw =>
    if parseTopo raw then (some (pathJoin [dir, TopologyJSONFileName], raw), none)
    else (none, some "unable to parse RWTopology from JSON bytes")

/-- `pullTRCs`: fetch the TRCs URL (the tar stream is the environment's
already-decoded entry list) and extract it with `extractTRCs`. -/
def pullTRCs (dir : String) (httpTRCs : String → Option (ℕ × List TarEntry))
    (a : TCPAddr) : List (String × String) × Option String :=
  match fetchHTTP (httpTRCs (buildTRCsURL a)) with
  | Except.error e => ([], some e)
  | Except.ok entries => extractTRCs dir entries

/-- What the orchestrator's `select` delivers first: an address from the
shared hint channel, or the `hintsTimeout` timer firing. -/
inductive HintEvent where
  | addr (a : TCPAddr)
  | timeout
  deriving DecidableEq, Repr

/-- The wait loop of `tryBootstrapping`, given the first event the
`select` delivers (every branch of the Go loop leaves the loop: the
address branch returns an error or breaks, the timer branch returns).  On
an address: substitute `DiscoveryPort` when the port is zero, then run
`pullTopology` and, if it succeeded, `pullTRCs`, both against that single
address.  Returns the list of addresses the artifact fetcher was invoked
with (in call order) and the terminal error, if any. -/
def tryBootstrapping (parseTopo : String → Bool) (dir : String)
    (httpTopo : String → Option (ℕ × String))
    (httpTRCs : String → Option (ℕ × List TarEntry)) :
    HintEvent → List TCPAddr × Option String
  | HintEvent.timeout => ([], some "bootstrapper timed out")
  | HintEvent.addr a =>
    let serverAddr : TCPAddr := ⟨a.ip, if a.port = 0 then DiscoveryPort else a.port⟩
    match (pullTopology parseTopo dir httpTopo serverAddr).2 with
    | some e => ([serverAddr], some e)
    | none =>
      match (pullTRCs dir httpTRCs serverAddr).2 with
      | some e => ([serverAddr, serverAddr], some e)
      | none => ([serverAddr, serverAddr], none)

/-! ## Lemmas about the two sort orders -/

/-- Whatever the stream, a `true` comparison implies the moving element's
priority is not larger. -/
theorem byPriorityLessS_true {x y : SRVRec} {r : RandS}
    (h : (byPriorityLessS x y r).1 = true) : x.Priority ≤ y.Priority := by
  by_cases h1 : x.Priority < y.Priority
  · omega
  by_cases h2 : y.Priority < x.Priority
  · simp [byPriorityLessS, h1, h2] at h
  omega

/-- Whatever the stream, a `false` comparison implies the left neighbour's
priority is not larger. -/
theorem byPriorityLessS_false {x y : SRVRec} {r : RandS}
    (h : (byPriorityLessS x y r).1 = false) : y.Priority ≤ x.Priority := by
  by_cases h1 : x.Priority < y.Priority
  · simp [byPriorityLessS, h1] at h
  omega

/-- The inner insertion loop produces a permutation of the element and the
prefix. -/
theorem insertSRVS_perm (x : SRVRec) :
    ∀ (rev : List SRVRec) (r : RandS), List.Perm ((insertSRVS x rev r).1) (x :: rev)
  | [], _ => by simp [insertSRVS]
  | y :: rev, r => by
    unfold insertSRVS
    by_cases hb : (byPriorityLessS x y r).1 = true
    · simp only [hb, if_true]
      exact ((insertSRVS_perm x rev ((byPriorityLessS x y r).2)).cons y).trans
        (List.Perm.swap x y rev)
    · simp [hb]

/-- The head of the inner loop's result is the moving element or the old
head. -/
theorem insertSRVS_head (x : SRVRec) (rev : List SRVRec) (r : RandS) :
    ((insertSRVS x rev r).1).head? = some x ∨ ((insertSRVS x rev r).1).head? = rev.head? := by
  cases rev with
  | nil => left; rfl
  | cons y rev =>
    unfold insertSRVS
    by_cases hb : (byPriorityLessS x y r).1 = true
    · right; simp [hb]
    · left; simp [hb]

/-- Priority order on the reversed prefix: later (leftward) elements have
priority at least as large. -/
def prioGE (a b : SRVRec) : Prop := b.Priority ≤ a.Priority

/-- The inner insertion loop keeps the reversed prefix ordered by
priority, for every randomness stream. -/
theorem insertSRVS_desc (x : SRVRec) :
    ∀ (rev : List SRVRec) (r : RandS), List.Chain' prioGE rev →
      List.Chain' prioGE ((insertSRVS x rev r).1)
  | [], _, _ => by simp [insertSRVS]
  | y :: rev, r, h => by
    unfold insertSRVS
    by_cases hb : (byPriorityLessS x y r).1 = true
    · simp only [hb, if_true]
      rw [List.chain'_cons']
      refine ⟨?_, insertSRVS_desc x rev ((byPriorityLessS x y r).2) h.tail⟩
      intro z hz
      rcases insertSRVS_head x rev ((byPriorityLessS x y r).2) with hh | hh
      · rw [hh] at hz
        cases hz
        exact byPriorityLessS_true hb
      · rw [hh] at hz
        exact (List.chain'_cons'.mp h).1 z hz
    · simp only [hb, if_false, Bool.false_eq_true]
      rw [List.chain'_cons]
      exact ⟨byPriorityLessS_false (Bool.eq_false_iff.mpr hb), h⟩

/-- The outer insertion-sort loop returns a permutation of the prefix and
the remaining input, for every randomness stream. -/
theorem insertionSortSRVS_perm :
    ∀ (xs revAcc : List SRVRec) (r : RandS),
      List.Perm ((insertionSortSRVS revAcc xs r).1) (revAcc ++ xs)
  | [], revAcc, _ => by simp [insertionSortSRVS]
  | x :: xs, revAcc, r => by
    unfold insertionSortSRVS
    have h1 := insertionSortSRVS_perm xs ((insertSRVS x revAcc r).1) ((insertSRVS x revAcc r).2)
    have h2 := (insertSRVS_perm x revAcc r).append_right xs
    exact (h1.trans h2).trans List.perm_middle.symm

/-- The outer insertion-sort loop produces a list ordered by ascending
priority, for every randomness stream. -/
theorem insertionSortSRVS_sorted :
    ∀ (xs revAcc : List SRVRec) (r : RandS), List.Chain' prioGE revAcc →
      List.Chain' (fun a b => a.Priority ≤ b.Priority) ((insertionSortSRVS revAcc xs r).1)
  | [], revAcc, _, h => by
    unfold insertionSortSRVS
    exact List.chain'_reverse.mpr h
  | x :: xs, revAcc, r, h =>
    insertionSortSRVS_sorted xs _ _ (insertSRVS_desc x revAcc r h)

/-- `sort.Sort (byPriority _)` permutes the batch (no record is dropped or
duplicated), for every randomness stream. -/
theorem sortSRVGo_perm (l : List SRVRec) (r : RandS) :
    List.Perm ((sortSRVGo l r).1) l := by
  simpa using insertionSortSRVS_perm l [] r

/-- `sort.Sort (byPriority _)` yields non-decreasing priorities, for every
randomness stream. -/
theorem sortSRVGo_sorted (l : List SRVRec) (r : RandS) :
    List.Chain' (fun a b => a.Priority ≤ b.Priority) ((sortSRVGo l r).1) :=
  insertionSortSRVS_sorted l [] r List.chain'_nil

/-- Lexicographic order on `(Order, Preference)`. -/
def naptrLE (a b : NAPTRRec) : Prop :=
  a.Order < b.Order ∨ (a.Order = b.Order ∧ a.Preference ≤ b.Preference)

/-- A `true` `byOrder.Less` comparison implies lexicographic `≤`. -/
theorem byOrderLess_true {x y : NAPTRRec} (h : byOrderLess x y = true) : naptrLE x y := by
  by_cases h1 : x.Order < y.Order
  · exact Or.inl h1
  by_cases h2 : y.Order < x.Order
  · simp [byOrderLess, h1, h2] at h
  · simp [byOrderLess, h1, h2] at h
    exact Or.inr ⟨by omega, le_of_lt h⟩

/-- A `false` `byOrder.Less` comparison implies the reverse lexicographic
`≤`. -/
theorem byOrderLess_false {x y : NAPTRRec} (h : byOrderLess x y = false) : naptrLE y x := by
  by_cases h1 : x.Order < y.Order
  · simp [byOrderLess, h1] at h
  by_cases h2 : y.Order < x.Order
  · exact Or.inl h2
  · simp [byOrderLess, h1, h2] at h
    exact Or.inr ⟨by omega, by omega⟩

/-- The inner `byOrder` insertion loop permutes. -/
theorem insertNAPTR_perm (x : NAPTRRec) :
    ∀ (rev : List NAPTRRec), List.Perm (insertNAPTR x rev) (x :: rev)
  | [] => by simp [insertNAPTR]
  | y :: rev => by
    unfold insertNAPTR
    by_cases hb : byOrderLess x y = true
    · simp only [hb, if_true]
      exact ((insertNAPTR_perm x rev).cons y).trans (List.Perm.swap x y rev)
    · simp [hb]

/-- The head of the inner loop's result is the moving element or the old
head. -/
theorem insertNAPTR_head (x : NAPTRRec) (rev : List NAPTRRec) :
    (insertNAPTR x rev).head? = some x ∨ (insertNAPTR x rev).head? = rev.head? := by
  cases rev with
  | nil => left; rfl
  | cons y rev =>
    unfold insertNAPTR
    by_cases hb : byOrderLess x y = true
    · right; simp [hb]
    · left; simp [hb]

/-- The inner `byOrder` insertion loop keeps the reversed prefix in
descending lexicographic order. -/
theorem insertNAPTR_desc (x : NAPTRRec) :
    ∀ (rev : List NAPTRRec), List.Chain' (fun a b => naptrLE b a) rev →
      List.Chain' (fun a b => naptrLE b a) (insertNAPTR x rev)
  | [], _ => by simp [insertNAPTR]
  | y :: rev, h => by
    unfold insertNAPTR
    by_cases hb : byOrderLess x y = true
    · simp only [hb, if_true]
      rw [List.chain'_cons']
      refine ⟨?_, insertNAPTR_desc x rev h.tail⟩
      intro z hz
      rcases insertNAPTR_head x rev with hh | hh
      · rw [hh] at hz
        cases hz
        exact byOrderLess_true hb
      · rw [hh] at hz
        exact (List.chain'_cons'.mp h).1 z hz
    · simp only [hb, if_false, Bool.false_eq_true]
      rw [List.chain'_cons]
      exact ⟨byOrderLess_false (Bool.eq_false_iff.mpr hb), h⟩

/-- The outer `byOrder` insertion-sort loop permutes. -/
theorem insertionSortNAPTR_perm :
    ∀ (xs revAcc : List NAPTRRec),
      List.Perm (insertionSortNAPTR revAcc xs) (revAcc ++ xs)
  | [], revAcc => by simp [insertionSortNAPTR]
  | x :: xs, revAcc => by
    unfold insertionSortNAPTR
    have h1 := insertionSortNAPTR_perm xs (insertNAPTR x revAcc)
    have h2 := (insertNAPTR_perm x revAcc).append_right xs
    exact (h1.trans h2).trans List.perm_middle.symm

/-- The outer `byOrder` insertion-sort loop sorts by `(Order, Preference)`
lexicographically. -/
theorem insertionSortNAPTR_sorted :
    ∀ (xs revAcc : List NAPTRRec), List.Chain' (fun a b => naptrLE b a) revAcc →
      List.Chain' naptrLE (insertionSortNAPTR revAcc xs)
  | [], revAcc, h => by
    unfold insertionSortNAPTR
    exact List.chain'_reverse.mpr h
  | x :: xs, revAcc, h =>
    insertionSortNAPTR_sorted xs _ (insertNAPTR_desc x revAcc h)

/-- `sort.Sort (byOrder _)` permutes the batch. -/
theorem sortNAPTRGo_perm (l : List NAPTRRec) : List.Perm (sortNAPTRGo l) l := by
  simpa using insertionSortNAPTR_perm l []

/-- `sort.Sort (byOrder _)` yields non-decreasing `(Order, Preference)`
pairs. -/
theorem sortNAPTRGo_sorted (l : List NAPTRRec) : List.Chain' naptrLE (sortNAPTRGo l) :=
  insertionSortNAPTR_sorted l [] List.chain'_nil

/-- A completed `resolveDNS` call's trace starts with the query it
issued. -/
theorem resolveDNS_head {env : Env} {fuel : ℕ} {q : String} {rr : RR} {r : RandS}
    {evs : List Event} {r2 : RandS} (h : resolveDNS env fuel q rr r = some (evs, r2)) :
    evs.head? = some (Event.query q rr) := by
  cases fuel with
  | zero => simp [resolveDNS] at h
  | succ f =>
    unfold resolveDNS at h
    split at h
    · simp only [Option.some.injEq, Prod.mk.injEq] at h
      rw [← h.1]
      rfl
    · split at h
      · exact Option.noConfusion h
      · split at h
        · exact Option.noConfusion h
        · split at h
          · exact Option.noConfusion h
          · simp only [Option.some.injEq, Prod.mk.injEq] at h
            rw [← h.1]
            rfl

/-! ## Claim C5: the chase has no depth bound -/

/-- A resolver that answers the NAPTR question for `"loop."` with a single
matching NAPTR record whose empty flags point the chase back at `"loop."`
itself, and fails every other exchange. -/
def loopEnv : Env := fun q rr =>
  if q = "loop." ∧ rr = RR.NAPTR then
    some [Answer.naptr ⟨10, 10, "", discoveryDDDSDNSName, "loop."⟩]
  else none

/-- C5: the recursive DNS chase carries no depth bound: under `loopEnv`
(a NAPTR record chasing its own replacement) the resolution pass needs
more than `fuel` recursion levels for every `fuel`, i.e. the model never
completes — the real, un-fuelled recursion never terminates on this
resolver data. -/
theorem dns_chase_unbounded (fuel : ℕ) (rnd : RandS) :
    resolveDNS loopEnv fuel "loop." RR.NAPTR rnd = none := by
  induction fuel generalizing rnd with
  | zero => rfl
  | succ f ih =>
    unfold resolveDNS
    simp [loopEnv, scanAnswersF, sortSRVGo, insertionSortSRVS, chaseSRVListF,
      sortNAPTRGo, insertionSortNAPTR, insertNAPTR, chaseNAPTRListF, ih]

/-! ## Claim C2: the SRV batch is fully chased in priority order -/

/-- The SRV chase loop, run with `resolveDNS` as the recursive call,
decomposes its trace into one block per batched record, in batch order,
each block an AAAA resolution followed by an A resolution of the record's
target. -/
theorem chaseSRVListF_blocks (env : Env) (fuel : ℕ) :
    ∀ (l : List SRVRec) (rnd : RandS) (evs : List Event) (rnd2 : RandS),
      chaseSRVListF (resolveDNS env fuel) l rnd = some (evs, rnd2) →
      ∃ blocks : List (List Event),
        evs = blocks.flatten ∧ blocks.length = l.length ∧
        ∀ (i : ℕ) (hi : i < l.length) (hb : i < blocks.length),
          ∃ e1 e2 : List Event,
            blocks[i] = e1 ++ e2 ∧
            e1.head? = some (Event.query (l[i]).Target RR.AAAA) ∧
            e2.head? = some (Event.query (l[i]).Target RR.A)
  | [], rnd, evs, rnd2, h => by
    simp only [chaseSRVListF, Option.some.injEq, Prod.mk.injEq] at h
    exact ⟨[], by simp [← h.1], by simp, fun i hi _ => absurd hi (by simp)⟩
  | rec :: rest, rnd, evs, rnd2, h => by
    unfold chaseSRVListF at h
    split at h
    · exact Option.noConfusion h
    next e1 r1 h1 =>
      split at h
      · exact Option.noConfusion h
      next e2 r2 h2 =>
        split at h
        · exact Option.noConfusion h
        next es r3 h3 =>
          simp only [Option.some.injEq, Prod.mk.injEq] at h
          obtain ⟨blocks, hflat, hlen, hblocks⟩ :=
            chaseSRVListF_blocks env fuel rest r2 es r3 h3
          refine ⟨(e1 ++ e2) :: blocks, ?_, by simp [hlen], ?_⟩
          · rw [← h.1, hflat]
            simp
          · intro i hi hb
            cases i with
            | zero => exact ⟨e1, e2, by simp, resolveDNS_head h1, resolveDNS_head h2⟩
            | succ i =>
              simp only [List.getElem_cons_succ]
              exact hblocks i (by simpa using hi) (by simpa using hb)

/-- C2: for every batch of SRV records and every randomness stream, the
chase order `(sortSRVGo batch rnd).1` is a permutation of the batch (no
record is filtered out) with non-decreasing priorities, and a completed
chase issues, per record in that order, an AAAA query on its target
followed by an A query on the same target. -/
theorem srv_batch_fully_chased_in_priority_order (env : Env) (fuel : ℕ)
    (batch : List SRVRec) (rnd : RandS) (evs : List Event) (rnd2 : RandS)
    (h : chaseSRVListF (resolveDNS env fuel) (sortSRVGo batch rnd).1 (sortSRVGo batch rnd).2 =
      some (evs, rnd2)) :
    List.Perm ((sortSRVGo batch rnd).1) batch ∧
    List.Chain' (fun a b => a.Priority ≤ b.Priority) ((sortSRVGo batch rnd).1) ∧
    ∃ blocks : List (List Event),
      evs = blocks.flatten ∧ blocks.length = ((sortSRVGo batch rnd).1).length ∧
      ∀ (i : ℕ) (hi : i < ((sortSRVGo batch rnd).1).length) (hb : i < blocks.length),
        ∃ e1 e2 : List Event,
          blocks[i] = e1 ++ e2 ∧
          e1.head? = some (Event.query (((sortSRVGo batch rnd).1)[i]).Target RR.AAAA) ∧
          e2.head? = some (Event.query (((sortSRVGo batch rnd).1)[i]).Target RR.A) :=
  ⟨sortSRVGo_perm batch rnd, sortSRVGo_sorted batch rnd,
    chaseSRVListF_blocks env fuel ((sortSRVGo batch rnd).1) ((sortSRVGo batch rnd).2)
      evs rnd2 h⟩

/-- A resolver environment returning an empty answer section for every
question (used to instantiate hypothesis-bearing theorems). -/
def env0 : Env := fun _ _ => some []

/-- Concrete SRV records for witnesses. -/
def srvW1 : SRVRec := ⟨1, 1, 8041, "a."⟩

/-- Concrete SRV record with smaller priority. -/
def srvW2 : SRVRec := ⟨0, 2, 8041, "b."⟩

/-- Witness for C2: the chase of the batch `[srvW1, srvW2]` under `env0`
completes and satisfies the claimed order and trace structure. -/
theorem srv_batch_fully_chased_in_priority_order_witness :
    List.Perm ((sortSRVGo [srvW1, srvW2] []).1) [srvW1, srvW2] ∧
    List.Chain' (fun a b => a.Priority ≤ b.Priority) ((sortSRVGo [srvW1, srvW2] []).1) ∧
    ∃ blocks : List (List Event),
      [Event.query "b." RR.AAAA, Event.query "b." RR.A,
        Event.query "a." RR.AAAA, Event.query "a." RR.A] = blocks.flatten ∧
      blocks.length = ((sortSRVGo [srvW1, srvW2] []).1).length ∧
      ∀ (i : ℕ) (hi : i < ((sortSRVGo [srvW1, srvW2] []).1).length) (hb : i < blocks.length),
        ∃ e1 e2 : List Event,
          blocks[i] = e1 ++ e2 ∧
          e1.head? = some (Event.query (((sortSRVGo [srvW1, srvW2] []).1)[i]).Target RR.AAAA) ∧
          e2.head? = some (Event.query (((sortSRVGo [srvW1, srvW2] []).1)[i]).Target RR.A) :=
  srv_batch_fully_chased_in_priority_order env0 1 [srvW1, srvW2] []
    [Event.query "b." RR.AAAA, Event.query "b." RR.A,
      Event.query "a." RR.AAAA, Event.query "a." RR.A] [] (by decide)

/-! ## Claim C3: NAPTR batching and processing order -/

/-- The NAPTR batching rule of the answer scan, applied to one answer: a
NAPTR record is kept iff its service equals the discovery service tag. -/
def naptrFilter (a : Answer) : Option NAPTRRec :=
  match a with
  | Answer.naptr rec => if rec.Service = discoveryDDDSDNSName then some rec else none
  | _ => none

/-- A completed answer scan batches exactly the NAPTR answers whose
service matches the discovery service tag, in answer order. -/
theorem scanAnswersF_naptrs (env : Env) (fuel : ℕ) :
    ∀ (answers : List Answer) (rnd : RandS) (evs : List Event) (srvs : List SRVRec)
      (naptrs : List NAPTRRec) (rnd1 : RandS),
      scanAnswersF (resolveDNS env fuel) answers rnd = some (evs, srvs, naptrs, rnd1) →
      naptrs = answers.filterMap naptrFilter
  | [], rnd, evs, srvs, naptrs, rnd1, h => by
    simp only [scanAnswersF, Option.some.injEq, Prod.mk.injEq] at h
    simp [← h.2.2.1]
  | Answer.ptr target :: rest, rnd, evs, srvs, naptrs, rnd1, h => by
    unfold scanAnswersF at h
    split at h
    · exact Option.noConfusion h
    next evsP rndP hP =>
      split at h
      · exact Option.noConfusion h
      next evs2 srvs2 naptrs2 rnd2 hscan =>
        simp only [Option.some.injEq, Prod.mk.injEq] at h
        have hrest := scanAnswersF_naptrs env fuel rest rndP evs2 srvs2 naptrs2 rnd2 hscan
        simp [naptrFilter, ← h.2.2.1, hrest]
  | Answer.naptr rec :: rest, rnd, evs, srvs, naptrs, rnd1, h => by
    unfold scanAnswersF at h
    split at h
    · exact Option.noConfusion h
    next evs2 srvs2 naptrs2 rnd2 hscan =>
      have hrest := scanAnswersF_naptrs env fuel rest rnd evs2 srvs2 naptrs2 rnd2 hscan
      by_cases hs : rec.Service = discoveryDDDSDNSName
      · rw [if_pos hs] at h
        simp only [Option.some.injEq, Prod.mk.injEq] at h
        simp [naptrFilter, hs, ← h.2.2.1, hrest]
      · rw [if_neg hs] at h
        simp only [Option.some.injEq, Prod.mk.injEq] at h
        simp [naptrFilter, hs, ← h.2.2.1, hrest]
  | Answer.srv rec :: rest, rnd, evs, srvs, naptrs, rnd1, h => by
    unfold scanAnswersF at h
    split at h
    · exact Option.noConfusion h
    next evs2 srvs2 naptrs2 rnd2 hscan =>
      simp only [Option.some.injEq, Prod.mk.injEq] at h
      have hrest := scanAnswersF_naptrs env fuel rest rnd evs2 srvs2 naptrs2 rnd2 hscan
      simp [naptrFilter, ← h.2.2.1, hrest]
  | Answer.a ip :: rest, rnd, evs, srvs, naptrs, rnd1, h => by
    unfold scanAnswersF at h
    split at h
    · exact Option.noConfusion h
    next evs2 srvs2 naptrs2 rnd2 hscan =>
      simp only [Option.some.injEq, Prod.mk.injEq] at h
      have hrest := scanAnswersF_naptrs env fuel rest rnd evs2 srvs2 naptrs2 rnd2 hscan
      simp [naptrFilter, ← h.2.2.1, hrest]
  | Answer.aaaa ip :: rest, rnd, evs, srvs, naptrs, rnd1, h => by
    unfold scanAnswersF at h
    split at h
    · exact Option.noConfusion h
    next evs2 srvs2 naptrs2 rnd2 hscan =>
      simp only [Option.some.injEq, Prod.mk.injEq] at h
      have hrest := scanAnswersF_naptrs env fuel rest rnd evs2 srvs2 naptrs2 rnd2 hscan
      simp [naptrFilter, ← h.2.2.1, hrest]

/-- C3: a NAPTR answer enters the batch iff its service field equals the
expected discovery service tag, and the chase processes the batch in the
`byOrder`-sorted order — a permutation of the batch that is non-decreasing
in `(Order, Preference)` lexicographically. -/
theorem naptr_batch_iff_service_and_lex_order (env : Env) (fuel : ℕ)
    (answers : List Answer) (rnd : RandS) (evs : List Event) (srvs : List SRVRec)
    (naptrs : List NAPTRRec) (rnd1 : RandS)
    (h : scanAnswersF (resolveDNS env fuel) answers rnd = some (evs, srvs, naptrs, rnd1)) :
    naptrs = answers.filterMap naptrFilter ∧
    List.Perm (sortNAPTRGo naptrs) naptrs ∧
    List.Chain' naptrLE (sortNAPTRGo naptrs) :=
  ⟨scanAnswersF_naptrs env fuel answers rnd evs srvs naptrs rnd1 h,
   sortNAPTRGo_perm naptrs, sortNAPTRGo_sorted naptrs⟩

/-- Concrete NAPTR records for witnesses: a matching record with flag
`"A"`. -/
def napW1 : NAPTRRec := ⟨20, 5, "A", discoveryDDDSDNSName, "n1."⟩

/-- A NAPTR record with a non-matching service tag (flag `"S"`). -/
def napW2 : NAPTRRec := ⟨10, 7, "S", "other:tag", "n2."⟩

/-- A matching NAPTR record with empty flags and a smaller order. -/
def napW3 : NAPTRRec := ⟨10, 3, "", discoveryDDDSDNSName, "n3."⟩

/-- A matching NAPTR record with an unrecognized flag. -/
def napW4 : NAPTRRec := ⟨30, 1, "X", discoveryDDDSDNSName, "n4."⟩

/-- Witness for C3: scanning a concrete answer section under `env0`
batches exactly the matching NAPTR answers, and the sorted batch is a
lexicographically ordered permutation. -/
theorem naptr_batch_iff_service_and_lex_order_witness :
    [napW1, napW3] =
      [Answer.naptr napW1, Answer.naptr napW2, Answer.ptr "p.",
        Answer.naptr napW3, Answer.a "10.0.0.9"].filterMap naptrFilter ∧
    List.Perm (sortNAPTRGo [napW1, napW3]) [napW1, napW3] ∧
    List.Chain' naptrLE (sortNAPTRGo [napW1, napW3]) :=
  naptr_batch_iff_service_and_lex_order env0 1
    [Answer.naptr napW1, Answer.naptr napW2, Answer.ptr "p.",
      Answer.naptr napW3, Answer.a "10.0.0.9"] []
    [Event.query "p." RR.SRV, Event.hint "10.0.0.9"] [] [napW1, napW3] [] (by decide)

/-! ## Claims C4 and C10: the NAPTR flag dispatch -/

/-- Shape of the trace block the NAPTR dispatch emits for one chased
record: empty flags — exactly one NAPTR resolution of the replacement;
`"A"` — an AAAA resolution then an A resolution of the replacement;
`"S"` — exactly one SRV resolution of the replacement; anything else —
no events at all. -/
def naptrBlockOK (env : Env) (fuel : ℕ) (rec : NAPTRRec) (block : List Event) : Prop :=
  if rec.Flags = "" then
    ∃ r r2, resolveDNS env fuel rec.Replacement RR.NAPTR r = some (block, r2) ∧
      block.head? = some (Event.query rec.Replacement RR.NAPTR)
  else if rec.Flags = "A" then
    ∃ e1 e2 r r1 r2,
      resolveDNS env fuel rec.Replacement RR.AAAA r = some (e1, r1) ∧
      resolveDNS env fuel rec.Replacement RR.A r1 = some (e2, r2) ∧
      block = e1 ++ e2 ∧
      e1.head? = some (Event.query rec.Replacement RR.AAAA) ∧
      e2.head? = some (Event.query rec.Replacement RR.A)
  else if rec.Flags = "S" then
    ∃ r r2, resolveDNS env fuel rec.Replacement RR.SRV r = some (block, r2) ∧
      block.head? = some (Event.query rec.Replacement RR.SRV)
  else block = []

/-- C4: a completed NAPTR chase decomposes into one block per batched
record, in batch order, and each block has exactly the shape the flag
dispatch prescribes (one NAPTR resolution for empty flags, AAAA then A
for `"A"`, one SRV resolution for `"S"`). -/
theorem naptr_flag_dispatch (env : Env) (fuel : ℕ) :
    ∀ (batch : List NAPTRRec) (rnd : RandS) (evs : List Event) (rnd2 : RandS),
      chaseNAPTRListF (resolveDNS env fuel) batch rnd = some (evs, rnd2) →
      ∃ blocks : List (List Event),
        evs = blocks.flatten ∧ blocks.length = batch.length ∧
        ∀ (i : ℕ) (hi : i < batch.length) (hb : i < blocks.length),
          naptrBlockOK env fuel batch[i] blocks[i]
  | [], rnd, evs, rnd2, h => by
    simp only [chaseNAPTRListF, Option.some.injEq, Prod.mk.injEq] at h
    exact ⟨[], by simp [← h.1], by simp, fun i hi _ => absurd hi (by simp)⟩
  | rec :: rest, rnd, evs, rnd2, h => by
    unfold chaseNAPTRListF at h
    by_cases hf0 : rec.Flags = ""
    · rw [if_pos hf0] at h
      split at h
      · exact Option.noConfusion h
      next e1 r1 h1 =>
        split at h
        · exact Option.noConfusion h
        next es r2' h2 =>
          simp only [Option.some.injEq, Prod.mk.injEq] at h
          obtain ⟨blocks, hflat, hlen, hblocks⟩ :=
            naptr_flag_dispatch env fuel rest r1 es r2' h2
          refine ⟨e1 :: blocks, by rw [← h.1, hflat]; simp, by simp [hlen], ?_⟩
          intro i hi hb
          cases i with
          | zero =>
            simp only [List.getElem_cons_zero]
            rw [naptrBlockOK, if_pos hf0]
            exact ⟨rnd, r1, h1, resolveDNS_head h1⟩
          | succ i =>
            simp only [List.getElem_cons_succ]
            exact hblocks i (by simpa using hi) (by simpa using hb)
    · rw [if_neg hf0] at h
      by_cases hfA : rec.Flags = "A"
      · rw [if_pos hfA] at h
        split at h
        · exact Option.noConfusion h
        next e1 r1 h1 =>
          split at h
          · exact Option.noConfusion h
          next e2 r2' h2 =>
            split at h
            · exact Option.noConfusion h
            next es r3 h3 =>
              simp only [Option.some.injEq, Prod.mk.injEq] at h
              obtain ⟨blocks, hflat, hlen, hblocks⟩ :=
                naptr_flag_dispatch env fuel rest r2' es r3 h3
              refine ⟨(e1 ++ e2) :: blocks, by rw [← h.1, hflat]; simp, by simp [hlen], ?_⟩
              intro i hi hb
              cases i with
              | zero =>
                simp only [List.getElem_cons_zero]
                rw [naptrBlockOK, if_neg hf0, if_pos hfA]
                exact ⟨e1, e2, rnd, r1, r2', h1, h2, rfl,
                  resolveDNS_head h1, resolveDNS_head h2⟩
              | succ i =>
                simp only [List.getElem_cons_succ]
                exact hblocks i (by simpa using hi) (by simpa using hb)
      · rw [if_neg hfA] at h
        by_cases hfS : rec.Flags = "S"
        · rw [if_pos hfS] at h
          split at h
          · exact Option.noConfusion h
          next e1 r1 h1 =>
            split at h
            · exact Option.noConfusion h
            next es r2' h2 =>
              simp only [Option.some.injEq, Prod.mk.injEq] at h
              obtain ⟨blocks, hflat, hlen, hblocks⟩ :=
                naptr_flag_dispatch env fuel rest r1 es r2' h2
              refine ⟨e1 :: blocks, by rw [← h.1, hflat]; simp, by simp [hlen], ?_⟩
              intro i hi hb
              cases i with
              | zero =>
                simp only [List.getElem_cons_zero]
                rw [naptrBlockOK, if_neg hf0, if_neg hfA, if_pos hfS]
                exact ⟨rnd, r1, h1, resolveDNS_head h1⟩
              | succ i =>
                simp only [List.getElem_cons_succ]
                exact hblocks i (by simpa using hi) (by simpa using hb)
        · rw [if_neg hfS] at h
          obtain ⟨blocks, hflat, hlen, hblocks⟩ :=
            naptr_flag_dispatch env fuel rest rnd evs rnd2 h
          refine ⟨[] :: blocks, by rw [hflat]; simp, by simp [hlen], ?_⟩
          intro i hi hb
          cases i with
          | zero =>
            simp only [List.getElem_cons_zero]
            rw [naptrBlockOK, if_neg hf0, if_neg hfA, if_neg hfS]
          | succ i =>
            simp only [List.getElem_cons_succ]
            exact hblocks i (by simpa using hi) (by simpa using hb)

/-- Witness for C4: a concrete batch covering all four flag shapes under
`env0` completes and its trace decomposes as the dispatch prescribes. -/
theorem naptr_flag_dispatch_witness :
    ∃ blocks : List (List Event),
      [Event.query "n3." RR.NAPTR, Event.query "n1." RR.AAAA, Event.query "n1." RR.A,
        Event.query "n2." RR.SRV] = blocks.flatten ∧
      blocks.length = ([napW3, napW1, napW2, napW4] : List NAPTRRec).length ∧
      ∀ (i : ℕ) (hi : i < ([napW3, napW1, napW2, napW4] : List NAPTRRec).length)
        (hb : i < blocks.length),
        naptrBlockOK env0 1 ([napW3, napW1, napW2, napW4] : List NAPTRRec)[i] blocks[i] :=
  naptr_flag_dispatch env0 1 [napW3, napW1, napW2, napW4] []
    [Event.query "n3." RR.NAPTR, Event.query "n1." RR.AAAA, Event.query "n1." RR.A,
      Event.query "n2." RR.SRV] [] (by decide)

/-- C10: a batched NAPTR record whose flags are none of `""`, `"A"`,
`"S"` is silently skipped by the chase: removing it from the batch leaves
the chase result (trace, stream and success) unchanged, so no query is
issued for it, no error arises, and the remaining records are processed
exactly as before. -/
theorem naptr_unknown_flags_skipped (env : Env) (fuel : ℕ) (l1 l2 : List NAPTRRec)
    (rec : NAPTRRec) (rnd : RandS) (h0 : rec.Flags ≠ "") (hA : rec.Flags ≠ "A")
    (hS : rec.Flags ≠ "S") :
    chaseNAPTRListF (resolveDNS env fuel) (l1 ++ rec :: l2) rnd =
      chaseNAPTRListF (resolveDNS env fuel) (l1 ++ l2) rnd := by
  induction l1 generalizing rnd with
  | nil =>
    simp only [List.nil_append]
    rw [chaseNAPTRListF]
    rw [if_neg h0, if_neg hA, if_neg hS]
  | cons x l1 ih =>
    simp only [List.cons_append]
    unfold chaseNAPTRListF
    simp only [ih]

/-- Witness for C10: dropping the concrete unknown-flag record `napW4`
from a batch leaves the chase unchanged. -/
theorem naptr_unknown_flags_skipped_witness :
    chaseNAPTRListF (resolveDNS env0 1) ([napW3] ++ napW4 :: [napW1]) [] =
      chaseNAPTRListF (resolveDNS env0 1) ([napW3] ++ [napW1]) [] :=
  naptr_unknown_flags_skipped env0 1 [napW3] [napW1] napW4 []
    (by decide) (by decide) (by decide)

/-! ## Claim C1: weighted selection within a priority tier -/

/-- A weight-1 record in a single-priority tier. -/
def srvA : SRVRec := ⟨10, 1, 8041, "a."⟩

/-- A second weight-1 record in the tier. -/
def srvB : SRVRec := ⟨10, 1, 8041, "b."⟩

/-- The weight-2 record in the tier: by the claim it must come first with
probability 2/(1+1+2) = 1/2. -/
def srvC : SRVRec := ⟨10, 2, 8041, "c."⟩

/-- Zero-weight records in a single-priority tier. -/
def srvZ1 : SRVRec := ⟨10, 0, 8041, "z1."⟩

/-- Second zero-weight record. -/
def srvZ2 : SRVRec := ⟨10, 0, 8041, "z2."⟩

/-- Third zero-weight record. -/
def srvZ3 : SRVRec := ⟨10, 0, 8041, "z3."⟩

/-- C1 (code bug): the selection is implemented by running insertion sort
with the randomized pairwise comparator `byPriority.Less`, which does not
produce weight-proportional selection.  In the tier `[srvA, srvB, srvC]`
with weights `(1, 1, 2)` the weight-2 record ends up first with
probability 4/9 — not the claimed 2/4 — and a weight-1 record with 5/18,
not 1/4; in an all-zero-weight tier of three the first arrival stays first
with probability 3/8, not the claimed uniform 1/3. -/
theorem srv_selection_not_weight_proportional :
    probOf (sortSRVD [srvA, srvB, srvC]) (fun l => l.head? = some srvC) = 4 / 9 ∧
    (4 / 9 : ℚ) ≠ (srvC.Weight : ℚ) / ((srvA.Weight : ℚ) + (srvB.Weight : ℚ) + (srvC.Weight : ℚ)) ∧
    probOf (sortSRVD [srvA, srvB, srvC]) (fun l => l.head? = some srvA) = 5 / 18 ∧
    (5 / 18 : ℚ) ≠ (srvA.Weight : ℚ) / ((srvA.Weight : ℚ) + (srvB.Weight : ℚ) + (srvC.Weight : ℚ)) ∧
    probOf (sortSRVD [srvZ1, srvZ2, srvZ3]) (fun l => l.head? = some srvZ1) = 3 / 8 ∧
    (3 / 8 : ℚ) ≠ 1 / 3 := by
  refine ⟨?_, by norm_num [srvA, srvB, srvC], ?_, by norm_num [srvA, srvB, srvC], ?_,
    by norm_num⟩
  · simp +decide [probOf, sortSRVD, insertionSortSRVD, insertSRVD, byPriorityLessD, dbind,
      dpure, randIntnD, srvA, srvB, srvC, List.range_succ]
    norm_num
  · simp +decide [probOf, sortSRVD, insertionSortSRVD, insertSRVD, byPriorityLessD, dbind,
      dpure, randIntnD, srvA, srvB, srvC, List.range_succ]
    norm_num
  · simp +decide [probOf, sortSRVD, insertionSortSRVD, insertSRVD, byPriorityLessD, dbind,
      dpure, randIntnD, srvZ1, srvZ2, srvZ3, List.range_succ]
    norm_num

/-! ## Claim C6: a non-regular archive entry aborts the TRCs extraction -/

/-- C6 counterexample: an archive with a regular entry followed by a
directory entry aborts with the fatal error, but the certificate file of
the earlier regular entry has already been written — refuting "writes no
certificate file from that archive". -/
theorem trc_dir_abort_writes_earlier_entry :
    extractTRCs "etc/scion" [⟨TypeFlag.reg, "a.trc", "PAYLOAD"⟩, ⟨TypeFlag.dir, "d", ""⟩] =
      ([("etc/scion/certs/a.trc", "PAYLOAD")],
        some "TRCs archive must be composed of TRCs only, directory found") ∧
    (extractTRCs "etc/scion"
      [⟨TypeFlag.reg, "a.trc", "PAYLOAD"⟩, ⟨TypeFlag.dir, "d", ""⟩]).1 ≠ [] := by
  refine ⟨by decide, by decide⟩

/-- C6 (amended): extraction of an archive whose first non-regular entry
is `e` aborts with a fatal error, and the files written are exactly those
of the regular prefix before `e` — nothing at or after `e` is written
(in particular, if `e` is the first entry nothing at all is written). -/
theorem trc_nonregular_aborts_after_prefix (dir : String) (l1 : List TarEntry)
    (e : TarEntry) (l2 : List TarEntry) (hreg : ∀ x ∈ l1, x.typeflag = TypeFlag.reg)
    (hne : e.typeflag ≠ TypeFlag.reg) :
    ∃ msg, extractTRCs dir (l1 ++ e :: l2) = ((extractTRCs dir l1).1, some msg) := by
  induction l1 with
  | nil =>
    cases he : e.typeflag with
    | reg => exact absurd he hne
    | dir =>
      refine ⟨"TRCs archive must be composed of TRCs only, directory found", ?_⟩
      simp [extractTRCs, he]
    | other c =>
      refine ⟨"TRCs archive must be composed of TRCs only, unknown type found", ?_⟩
      simp [extractTRCs, he]
  | cons x l1 ih =>
    obtain ⟨tf, nm, ct⟩ := x
    have hx : tf = TypeFlag.reg := hreg ⟨tf, nm, ct⟩ (by simp)
    subst hx
    obtain ⟨msg, hmsg⟩ := ih (fun y hy => hreg y (by simp [hy]))
    refine ⟨msg, ?_⟩
    simp only [List.cons_append, extractTRCs]
    by_cases hb : filepathBase nm = "."
    · simp [hb, hmsg]
    · simp [hb, hmsg]

/-- Witness for the amended C6: a concrete archive with one regular entry
before a directory entry. -/
theorem trc_nonregular_aborts_after_prefix_witness :
    ∃ msg, extractTRCs "etc/scion"
        ([⟨TypeFlag.reg, "a.trc", "PAYLOAD"⟩] ++ ⟨TypeFlag.dir, "d", ""⟩ :: []) =
      ((extractTRCs "etc/scion" [⟨TypeFlag.reg, "a.trc", "PAYLOAD"⟩]).1, some msg) :=
  trc_nonregular_aborts_after_prefix "etc/scion" [⟨TypeFlag.reg, "a.trc", "PAYLOAD"⟩]
    ⟨TypeFlag.dir, "d", ""⟩ [] (by decide) (by decide)

/-! ## Claim C7: base names and path traversal -/

/-- C7 counterexample: an entry named `".."` has base name `".."`, which
is not `"."` and hence is not skipped; it is written, and its joined path
cleans to the parent configuration directory itself — outside the
certificates subdirectory. -/
theorem trc_dotdot_escapes_certs_dir :
    filepathBase ".." = ".." ∧ filepathBase ".." ≠ "." ∧
    extractTRCs "etc/scion" [⟨TypeFlag.reg, "..", "evil"⟩] = ([("etc/scion", "evil")], none) ∧
    ¬ ("etc/scion/certs/".isPrefixOf "etc/scion") := by
  refine ⟨by decide, by decide, by decide, by decide⟩

/-- The clean loop returns the buffer when the input is exhausted. -/
theorem cleanLoop_nil (rooted : Bool) (fuel dotdot : ℕ) (out : List Char) :
    cleanLoop rooted fuel dotdot out [] = out := by
  cases fuel <;> rfl

/-- On a nonempty slash-free element other than `.` and `..`, the clean
loop copies the element (after a separator, unless the buffer is at its
start) and stops. -/
theorem cleanLoop_plain (rooted : Bool) (fuel dotdot : ℕ) (out : List Char)
    (b : List Char) (hne : b ≠ []) (hs : ∀ c ∈ b, c ≠ '/')
    (h1 : b ≠ ['.']) (h2 : b ≠ ['.', '.']) :
    cleanLoop rooted (fuel + 1) dotdot out b =
      b.reverse ++ (if (rooted ∧ out.length ≠ 1) ∨ (¬ rooted ∧ out.length ≠ 0)
        then '/' :: out else out) := by
  cases b with
  | nil => exact absurd rfl hne
  | cons c cs =>
    have hc : c ≠ '/' := hs c (by simp)
    have hcs : ∀ x ∈ cs, x ≠ '/' := fun x hx => hs x (by simp [hx])
    have g2 : ¬ (c = '.' ∧ (cs = [] ∨ cs.head? = some '/')) := by
      rintro ⟨rfl, hcase | hcase⟩
      · exact h1 (by rw [hcase])
      · cases cs with
        | nil => simp at hcase
        | cons d cs2 =>
          simp only [List.head?_cons, Option.some.injEq] at hcase
          exact hcs d (by simp) hcase
    have g3 : ¬ (c = '.' ∧ cs.head? = some '.' ∧ (cs.tail = [] ∨ cs.tail.head? = some '/')) := by
      rintro ⟨rfl, hh, hcase⟩
      cases cs with
      | nil => simp at hh
      | cons d cs2 =>
        simp only [List.head?_cons, Option.some.injEq] at hh
        subst hh
        simp only [List.tail_cons] at hcase
        rcases hcase with hcase | hcase
        · exact h2 (by rw [hcase])
        · cases cs2 with
          | nil => simp at hcase
          | cons e2 cs3 =>
            simp only [List.head?_cons, Option.some.injEq] at hcase
            exact hcs e2 (by simp) hcase
    rw [cleanLoop.eq_def]
    simp only []
    rw [if_neg hc, if_neg g2, if_neg g3]
    have htake : cs.takeWhile (fun x => x ≠ '/') = cs := by
      rw [List.takeWhile_eq_self_iff]
      intro a ha
      simp [hcs a ha]
    have hdrop : cs.dropWhile (fun x => x ≠ '/') = [] := by
      rw [List.dropWhile_eq_nil_iff]
      intro a ha
      simp [hcs a ha]
    rw [htake, hdrop, cleanLoop_nil]

/-- `path.Join(dir, "certs", b)` with the representative configuration
directory `"etc/scion"` and a plain base name `b` (nonempty, slash-free,
neither `"."` nor `".."`) appends `b` under the certificates directory:
no traversal out of it is possible for such names. -/
theorem pathJoin_certs_plain (b : String) (hne : b.data ≠ [])
    (hs : ∀ c ∈ b.data, c ≠ '/') (h1 : b ≠ ".") (h2 : b ≠ "..") :
    pathJoin ["etc/scion", "certs", b] = "etc/scion/certs/" ++ b := by
  have hd1 : b.data ≠ ['.'] := fun hh => h1 (String.ext hh)
  have hd2 : b.data ≠ ['.', '.'] := fun hh => h2 (String.ext hh)
  have hball : ¬ ((["etc/scion", "certs", b].all (fun e => e = "")) = true) := by
    intro hall
    rw [List.all_eq_true] at hall
    have hx := hall "etc/scion" (by simp)
    simp at hx
  rw [pathJoin, if_neg hball]
  have hfold : (["etc/scion", "certs", b].foldl
      (fun buf e => if buf = "" then e else buf ++ "/" ++ e) "") =
      "etc/scion/certs" ++ ("/" ++ b) := by rfl
  rw [hfold]
  have hsdata : ("etc/scion/certs" ++ ("/" ++ b)).data =
      'e' :: 't' :: 'c' :: '/' :: 's' :: 'c' :: 'i' :: 'o' :: 'n' :: '/' ::
        'c' :: 'e' :: 'r' :: 't' :: 's' :: '/' :: b.data := by
    rw [String.data_append, String.data_append]
    rfl
  have hc1 : ¬ (('e' :: 't' :: 'c' :: '/' :: 's' :: 'c' :: 'i' :: 'o' :: 'n' :: '/' ::
      'c' :: 'e' :: 'r' :: 't' :: 's' :: '/' :: b.data) = []) := by simp
  have hc2 : ¬ (('e' :: 't' :: 'c' :: '/' :: 's' :: 'c' :: 'i' :: 'o' :: 'n' :: '/' ::
      'c' :: 'e' :: 'r' :: 't' :: 's' :: '/' :: b.data).head? = some '/') := by simp
  rw [pathClean, hsdata]
  rw [if_neg hc1, if_neg hc2]
  show (if cleanLoop false (b.data.length + 9 + 1) 0
      ['s', 't', 'r', 'e', 'c', '/', 'n', 'o', 'i', 'c', 's', '/', 'c', 't', 'e'] b.data = []
    then "."
    else String.mk (cleanLoop false (b.data.length + 9 + 1) 0
      ['s', 't', 'r', 'e', 'c', '/', 'n', 'o', 'i', 'c', 's', '/', 'c', 't', 'e']
      b.data).reverse) = "etc/scion/certs/" ++ b
  rw [cleanLoop_plain false (b.data.length + 9) 0
    ['s', 't', 'r', 'e', 'c', '/', 'n', 'o', 'i', 'c', 's', '/', 'c', 't', 'e']
    b.data hne hs hd1 hd2]
  apply String.ext
  simp [String.data_append]

/-- `filepath.Base` returns `"."`, `"/"`, or a nonempty slash-free
segment. -/
theorem filepathBase_shape (s : String) :
    filepathBase s = "." ∨ filepathBase s = "/" ∨
    ((filepathBase s).data ≠ [] ∧ ∀ c ∈ (filepathBase s).data, c ≠ '/') := by
  rw [filepathBase]
  by_cases h0 : s.data = []
  · rw [if_pos h0]
    left
    rfl
  · rw [if_neg h0]
    by_cases hseg :
        (s.data.reverse.dropWhile (fun c => c = '/')).takeWhile (fun c => c ≠ '/') = []
    · rw [if_pos hseg]
      right
      left
      rfl
    · rw [if_neg hseg]
      right
      right
      refine ⟨by simpa using hseg, ?_⟩
      intro c hc
      have hmem : c ∈ (s.data.reverse.dropWhile (fun x => x = '/')).takeWhile
          (fun x => x ≠ '/') := by
        simpa using hc
      have := List.mem_takeWhile_imp hmem
      simpa using this

/-- C7 (amended): for a regular archive entry, the name under which it is
written is `filepath.Base` of its declared name; an entry whose base name
is `"."` is skipped and extraction continues with the rest; any other
base name is written at `path.Join(dir, "certs", base)`, and when the
base name is neither `".."` nor `"/"` that path lies inside the
certificates subdirectory (shown for the representative configuration
directory `"etc/scion"`).  Base names `".."` and `"/"` are the exception
the counterexample exhibits. -/
theorem trc_basename_written_dot_skipped (dir : String) (e : TarEntry)
    (rest : List TarEntry) (hreg : e.typeflag = TypeFlag.reg) :
    (filepathBase e.name = "." → extractTRCs dir (e :: rest) = extractTRCs dir rest) ∧
    (filepathBase e.name ≠ "." →
      extractTRCs dir (e :: rest) =
        ((pathJoin [dir, "certs", filepathBase e.name], e.content) :: (extractTRCs dir rest).1,
          (extractTRCs dir rest).2)) ∧
    (filepathBase e.name ≠ "." → filepathBase e.name ≠ ".." → filepathBase e.name ≠ "/" →
      pathJoin ["etc/scion", "certs", filepathBase e.name] =
        "etc/scion/certs/" ++ filepathBase e.name) := by
  obtain ⟨tf, nm, ct⟩ := e
  subst hreg
  refine ⟨?_, ?_, ?_⟩
  · intro hb
    simp [extractTRCs, hb]
  · intro hb
    simp [extractTRCs, hb]
  · intro hb hb2 hb3
    rcases filepathBase_shape nm with h | h | ⟨hne, hs⟩
    · exact absurd h hb
    · exact absurd h hb3
    · exact pathJoin_certs_plain (filepathBase nm) hne hs hb hb2

/-- Witness for the amended C7: a concrete entry named `"sub/ISD1.trc"`
is written under base name `"ISD1.trc"` inside the certificates
directory. -/
theorem trc_basename_written_dot_skipped_witness :
    (filepathBase "sub/ISD1.trc" = "." →
      extractTRCs "etc/scion" [⟨TypeFlag.reg, "sub/ISD1.trc", "T"⟩] =
        extractTRCs "etc/scion" []) ∧
    (filepathBase "sub/ISD1.trc" ≠ "." →
      extractTRCs "etc/scion" [⟨TypeFlag.reg, "sub/ISD1.trc", "T"⟩] =
        ((pathJoin ["etc/scion", "certs", filepathBase "sub/ISD1.trc"], "T") ::
            (extractTRCs "etc/scion" []).1,
          (extractTRCs "etc/scion" []).2)) ∧
    (filepathBase "sub/ISD1.trc" ≠ "." → filepathBase "sub/ISD1.trc" ≠ ".." →
      filepathBase "sub/ISD1.trc" ≠ "/" →
      pathJoin ["etc/scion", "certs", filepathBase "sub/ISD1.trc"] =
        "etc/scion/certs/" ++ filepathBase "sub/ISD1.trc") :=
  trc_basename_written_dot_skipped "etc/scion" ⟨TypeFlag.reg, "sub/ISD1.trc", "T"⟩ []
    (by decide)

/-! ## Claim C8: topology fetch aborts without writing -/

/-- C8: when the topology response has a non-200 status or its body does
not parse as a topology document, `pullTopology` returns an error and
writes no topology file (the parse check precedes the write). -/
theorem topology_bad_response_no_write (parseTopo : String → Bool) (dir : String)
    (httpTopo : String → Option (ℕ × String)) (a : TCPAddr)
    (h : ∃ status body, httpTopo (buildTopologyURL a) = some (status, body) ∧
      (status ≠ 200 ∨ parseTopo body = false)) :
    (pullTopology parseTopo dir httpTopo a).1 = none ∧
    (pullTopology parseTopo dir httpTopo a).2.isSome := by
  obtain ⟨status, body, hresp, hbad⟩ := h
  unfold pullTopology
  rw [hresp]
  by_cases hst : status = 200
  · subst hst
    rcases hbad with hbad | hbad
    · exact absurd rfl hbad
    · simp [fetchHTTP, hbad]
  · simp [fetchHTTP, hst]

/-- Witness for C8: a response with status 200 whose body fails to parse
yields an error and no write. -/
theorem topology_bad_response_no_write_witness :
    (pullTopology (fun _ => false) "etc/scion" (fun _ => some (200, "junk"))
      ⟨"192.0.2.1", 8041⟩).1 = none ∧
    (pullTopology (fun _ => false) "etc/scion" (fun _ => some (200, "junk"))
      ⟨"192.0.2.1", 8041⟩).2.isSome :=
  topology_bad_response_no_write (fun _ => false) "etc/scion" (fun _ => some (200, "junk"))
    ⟨"192.0.2.1", 8041⟩ ⟨200, "junk", rfl, Or.inr rfl⟩

/-! ## Claim C9: the first hint is used, with the discovery port substituted -/

/-- C9: on the first address delivered by the hint channel, the
orchestrator substitutes the well-known discovery port exactly when the
received port is zero, invokes the artifact fetcher at least once, and
every fetch call is made against exactly that single substituted
address. -/
theorem first_hint_single_address_port_substituted (parseTopo : String → Bool)
    (dir : String) (httpTopo : String → Option (ℕ × String))
    (httpTRCs : String → Option (ℕ × List TarEntry)) (ip : String) (p : ℕ) :
    (tryBootstrapping parseTopo dir httpTopo httpTRCs (HintEvent.addr ⟨ip, p⟩)).1 ≠ [] ∧
    ∀ c ∈ (tryBootstrapping parseTopo dir httpTopo httpTRCs (HintEvent.addr ⟨ip, p⟩)).1,
      c = ⟨ip, if p = 0 then DiscoveryPort else p⟩ := by
  constructor <;>
  · simp only [tryBootstrapping]
    split
    · simp
    · split <;> simp

end Bootstrap
